import Mathlib

set_option linter.unusedVariables false

/- Shallow embedding of `src/cvae.py` (a convolutional variational
autoencoder built on a static computation graph).

Tensors are lists of reals: a batch is a `List (List ℝ)`, one inner list per
example.  The third-party layer stacks (the prettytensor convolution /
dropout / fully-connected chain of the encoder, the deconvolution chain of
the decoder) and the Adam update are deterministic functions carried as
fields of the model; everything written out in `cvae.py` itself — the
mean / stddev split with `sqrt(exp(.))`, the reparameterized sample
`z = mean + stddev * eps`, the clipped Bernoulli reconstruction loss, the KL
latent loss, the training loop, the iteration counter and the checkpoint /
naming / logging helpers — is embedded explicitly.  The graph holds two
stochastic ops: `tf.random_normal` (the sampler's `eps`), passed to every
session run as an explicit argument, and the `dropout(0.9)` inside the
encoder stack, which prettytensor builds in its library-default train phase
— the `is_training` placeholder is wired to nothing — so its keep mask is
redrawn on every run, inference included.  `Nets.encNet` fixes one
realization of that mask (each property quantifying over `encNet` therefore
holds for every realization); the refined `EncStack` embedding below makes
the per-run mask an explicit argument where a claim turns on it.  The
`is_training` placeholder is an explicit `Bool` argument of every operation
that feeds it. -/

/-- Trainable networks of the model.  `encNet` is the encoder's stack
(`conv2d 5 32 stride 2 → conv2d 5 64 stride 2 → conv2d 5 128 VALID →
dropout 0.9 → flatten → fully_connected (2 * latent_size)`), mapping a flat
input image to the raw `2 * latent_size` outputs of the final
fully-connected layer; `decNet` is the decoder's deconvolution stack
(`deconv2d 3 128 VALID → deconv2d 5 64 VALID → deconv2d 5 32 stride 2 →
deconv2d 5 1 stride 2 sigmoid → flatten`), mapping a latent vector to a flat
reconstruction.  Their internals live in third-party layers, embedded as
abstract deterministic functions; in particular `encNet` fixes one
realization of the per-run dropout keep mask, which `EncStack` /
`encStackRun` below expose explicitly. -/
structure Nets where
  encNet : List ℝ → List ℝ
  decNet : List ℝ → List ℝ

/-- The CVAE model object (`CVAE.__init__`): hyperparameters fixed at
construction, the network stacks, one abstract Adam update step
(`optStep X eps` maps the current nets to the updated nets for the batch `X`
with sampler noise `eps`), and the training iteration counter. -/
structure CVAE where
  input_shape : ℕ × ℕ
  batch_size : ℕ
  latent_size : ℕ
  e_dim : ℕ
  d_dim : ℕ
  nets : Nets
  optStep : List (List ℝ) → List (List ℝ) → Nets → Nets
  iteration : ℕ

/-- Constructor: stores the hyperparameters and starts `iteration` at 0. -/
def CVAE.init (input_shape : ℕ × ℕ) (batch_size latent_size e_dim d_dim : ℕ)
    (nets : Nets) (optStep : List (List ℝ) → List (List ℝ) → Nets → Nets) : CVAE :=
  { input_shape := input_shape, batch_size := batch_size,
    latent_size := latent_size, e_dim := e_dim, d_dim := d_dim,
    nets := nets, optStep := optStep, iteration := 0 }

/-- Per-example encoder (`CVAE.encoder`): run the stack, split its
`2 * latent_size` outputs; the first half is the mean, the second half is
transformed by `sqrt(exp(.))` into a strictly positive scale (`stddev`). -/
noncomputable def CVAE.encoder (m : CVAE) (x : List ℝ) : List ℝ × List ℝ :=
  let params := m.nets.encNet x
  (params.take m.latent_size,
   (params.drop m.latent_size).map fun p => Real.sqrt (Real.exp p))

/-- Graph node `self.z_mean`: the encoder's first return. -/
noncomputable def CVAE.z_mean (m : CVAE) (x : List ℝ) : List ℝ := (m.encoder x).1

/-- Attribute `self.z_log_sigma_sq`: bound to the encoder's second return,
i.e. already the transformed scale `sqrt(exp(raw))`. -/
noncomputable def CVAE.z_log_sigma_sq (m : CVAE) (x : List ℝ) : List ℝ := (m.encoder x).2

/-- Sampler node: `z = add(z_mean, mul(z_log_sigma_sq, eps))`, elementwise,
with `eps` a fresh standard-normal draw per run. -/
noncomputable def CVAE.z (m : CVAE) (x eps : List ℝ) : List ℝ :=
  List.zipWith (· + ·) (m.z_mean x) (List.zipWith (· * ·) (m.z_log_sigma_sq x) eps)

/-- Graph node `self.x_reconstr_mean`: the decoder applied to `z`. -/
noncomputable def CVAE.x_reconstr_mean (m : CVAE) (x eps : List ℝ) : List ℝ :=
  m.nets.decNet (m.z x eps)

/-- Semantics of `tf.clip_by_value t lo hi`. -/
noncomputable def clip_by_value (x lo hi : ℝ) : ℝ := min (max x lo) hi

/-- The clipping bound `1e-10` of the reconstruction loss. -/
noncomputable def logClipEps : ℝ := 1 / 10 ^ 10

/-- Per-example reconstruction loss (`self.reconstr_loss`): negative
Bernoulli log-likelihood, with each logarithm's argument clipped to
`[1e-10, 1.0]`. -/
noncomputable def reconstr_loss (x xr : List ℝ) : ℝ :=
  -(List.zipWith
      (fun xi ri =>
        xi * Real.log (clip_by_value ri logClipEps 1) +
          (1 - xi) * Real.log (clip_by_value (1 - ri) logClipEps 1))
      x xr).sum

/-- Per-example latent loss (`self.latent_loss`): the closed-form KL
expression `-0.5 * Σ (1 + s - mean^2 - exp s)` applied to whatever is passed
as its `z_log_sigma_sq` argument. -/
noncomputable def latent_loss (z_log_sigma_sq z_mean : List ℝ) : ℝ :=
  -0.5 *
    (List.zipWith (fun s mu => 1 + s - mu ^ 2 - Real.exp s) z_log_sigma_sq z_mean).sum

/-- The latent-loss node as wired in the constructor: the KL expression
applied to the attribute `z_log_sigma_sq` (the encoder's second output) and
to `z_mean`. -/
noncomputable def CVAE.latent_term (m : CVAE) (x : List ℝ) : ℝ :=
  latent_loss (m.z_log_sigma_sq x) (m.z_mean x)

/-- The latent term the spec describes: the KL expression applied to the raw
pre-transform second half of the final fully-connected layer's output. -/
noncomputable def CVAE.kl_on_raw (m : CVAE) (x : List ℝ) : ℝ :=
  latent_loss ((m.nets.encNet x).drop m.latent_size) (m.z_mean x)

/-- Batch loss node: `reduce_mean(reconstr_loss + latent_loss)`, one `eps`
row per example. -/
noncomputable def CVAE.loss (m : CVAE) (X eps : List (List ℝ)) : ℝ :=
  let per := List.zipWith
    (fun x e => reconstr_loss x (m.x_reconstr_mean x e) + m.latent_term x) X eps
  per.sum / per.length

/-- One training step (`partial_fit`): one abstract Adam update and a
counter increment; returns the updated model, the cost of the run (computed
from the pre-update parameters), and whether a diagnostic summary was
emitted (`self.iteration % 10 == 0`, checked before the increment).  `it` is
the value fed for the `is_training` placeholder. -/
noncomputable def CVAE.partial_fit (m : CVAE) (X eps : List (List ℝ)) (it : Bool) :
    CVAE × ℝ × Bool :=
  ({ m with nets := m.optStep X eps m.nets, iteration := m.iteration + 1 },
   m.loss X eps, m.iteration % 10 == 0)

/-- Inference operation `transform`: evaluates the `z_mean` node only.  The
random node is not an ancestor of `z_mean`, so the session's would-be noise
draw `eps` is never consumed. -/
noncomputable def CVAE.transform (m : CVAE) (X eps : List (List ℝ)) (it : Bool) :
    List (List ℝ) :=
  X.map fun x => m.z_mean x

/-- Inference operation `reconstruct`: full encode → sample → decode pass,
consuming one fresh noise row per example. -/
noncomputable def CVAE.reconstruct (m : CVAE) (X eps : List (List ℝ)) (it : Bool) :
    List (List ℝ) :=
  List.zipWith (fun x e => m.x_reconstr_mean x e) X eps

/-- Python name-resolution outcome of `generate`'s body. -/
inductive PyErr where
  | nameError (n : String)

/-- Modelled from the spec: the enclosing scopes of `generate`.  The
wildcard import `from utils import *` is the only possible source of a
module-level binding for the free name `z_mu` read inside `generate`, and
`utils.py` is not among the repository's files; the spec states that the
latent vector read there "is not passed as a parameter" and that the method
"reads an undefined external variable", so no enclosing scope binds a latent
vector under that name. -/
def enclosing_latent_bindings : String → Option (List (List ℝ)) := fun _ => none

/-- Inference operation `generate`: builds a feed dictionary whose entry for
the `z` placeholder is the plain name `z_mu` — hence resolves `z_mu` against
the enclosing scopes — and on success would run the `x_reconstr_mean` node
with `z` overridden, a decode-only pass.  `it` is the value fed for
`is_training`. -/
def CVAE.generate (m : CVAE) (it : Bool) : Except PyErr (List (List ℝ)) :=
  match enclosing_latent_bindings "z_mu" with
  | some z_mu => Except.ok (z_mu.map m.nets.decNet)
  | none => Except.error (PyErr.nameError "z_mu")

/-- The session's trainable-variable store (what `tf.train.Saver`
snapshots). -/
structure Session where
  vars : List ℝ

/-- Semantics of `Saver.restore`: overwrite every trainable parameter with
the checkpoint's contents. -/
def saver_restore (s : Session) (ckpt : List ℝ) : Session := { vars := ckpt }

/-- Operation `load`: an `os.path.isfile` guard, then restore.  `fileExists`
embeds the file system, `ckpts` the checkpoint contents on disk. -/
def CVAE.load (fileExists : String → Bool) (ckpts : String → List ℝ)
    (s : Session) (filename : String) : Session :=
  if fileExists filename then saver_restore s (ckpts filename) else s

/-- Operation `get_name`, as a function of the hyperparameters:
`cvae_input_HxW_batchB_latentL_edimE_ddimD` with each number rendered in
decimal (`%d`). -/
def nameOf (h w bs ls ed dd : ℕ) : String :=
  "cvae_input_" ++ Nat.repr h ++ "x" ++ Nat.repr w ++ "_batch" ++ Nat.repr bs ++
    "_latent" ++ Nat.repr ls ++ "_edim" ++ Nat.repr ed ++ "_ddim" ++ Nat.repr dd

/-- Operation `get_name` on a model object. -/
def CVAE.get_name (m : CVAE) : String :=
  nameOf m.input_shape.1 m.input_shape.2 m.batch_size m.latent_size m.e_dim m.d_dim

/-- Python `str.replace` for a single-character pattern: replace every
occurrence of `old` by `new`. -/
def pyReplace (s : String) (old new : Char) : String :=
  ⟨s.data.map fun c => if c = old then new else c⟩

/-- Operation `get_formatted_datetime`: `str(datetime.datetime.now())`
(passed in as `now`) with `" "`, then `"-"`, then `":"` replaced by `"_"`. -/
def get_formatted_datetime (now : String) : String :=
  pyReplace (pyReplace (pyReplace now ' ' '_') '-' '_') ':' '_'

/-- The summary writer's directory chosen in the constructor:
`"logs/" + self.get_name() + self.get_formatted_datetime()`. -/
def CVAE.log_dir (m : CVAE) (now : String) : String :=
  "logs/" ++ m.get_name ++ get_formatted_datetime now

/-- One epoch of `train`: `total_batch` iterations, each drawing the next
batch and the next noise draw from the streams and running one
`partial_fit`; accumulates `avg_cost += cost / n_samples * batch_size`. -/
noncomputable def CVAE.trainEpoch (m : CVAE) (batches eps : ℕ → List (List ℝ))
    (start total_batch batch_size n_samples : ℕ) : CVAE × ℝ :=
  (List.range total_batch).foldl
    (fun acc i =>
      let r := acc.1.partial_fit (batches (start + i)) (eps (start + i)) true
      (r.1, acc.2 + r.2.1 / (n_samples : ℝ) * (batch_size : ℝ)))
    (m, 0)

/-- Operation `train`: `total_batch = int(n_samples / batch_size)` (floor
division) iterations per epoch; returns the final model and each epoch's
accumulated average cost (the value the source prints). -/
noncomputable def CVAE.train (m : CVAE) (n_samples : ℕ)
    (batches eps : ℕ → List (List ℝ)) (batch_size training_epochs : ℕ) :
    CVAE × List ℝ :=
  let total_batch := n_samples / batch_size
  (List.range training_epochs).foldl
    (fun acc e =>
      let r := acc.1.trainEpoch batches eps (e * total_batch) total_batch
        batch_size n_samples
      (r.1, acc.2 ++ [r.2]))
    (m, [])

/-- The model after `k` successive `partial_fit` steps on consecutive
stream positions starting at `start`. -/
noncomputable def CVAE.modelAfter (batches eps : ℕ → List (List ℝ)) :
    ℕ → ℕ → CVAE → CVAE
  | _, 0, m => m
  | start, k + 1, m =>
    CVAE.modelAfter batches eps (start + 1) k
      ((m.partial_fit (batches start) (eps start) true).1)

/-- Concrete stand-in networks for concrete evaluations: the encoder stack
sends every image to the raw output `[0, 0]` (latent size 1), the decoder is
the identity. -/
noncomputable def demoNets : Nets :=
  { encNet := fun _ => [0, 0], decNet := fun z => z }

/-- Concrete model with hyperparameters `(1, 1), 1, 1, 1, 1` and an Adam
step that keeps the parameters unchanged. -/
noncomputable def demoModel : CVAE :=
  CVAE.init (1, 1) 1 1 1 1 demoNets (fun _ _ n => n)

/-- Second concrete model: same hyperparameters as `demoModel`, different
networks. -/
noncomputable def demoModelB : CVAE :=
  CVAE.init (1, 1) 1 1 1 1 { encNet := fun _ => [], decNet := fun _ => [] }
    (fun _ _ n => n)

/-- The encoder stack of lines 126-133 with `dropout(0.9)` split out: the
three convolution layers before the dropout and the flatten /
fully-connected tail after it, each an abstract deterministic
(parameterized) map. -/
structure EncStack where
  convLayers : List ℝ → List ℝ
  fcTail : List ℝ → List ℝ

/-- Semantics of `tf.nn.dropout x keep_prob` given the Bernoulli keep mask
the op draws on each run: a kept unit is scaled by `1 / keep_prob`, a
dropped unit becomes 0. -/
noncomputable def dropout (keep : ℝ) (mask : List Bool) (x : List ℝ) : List ℝ :=
  List.zipWith (fun b v => if b then v / keep else 0) mask x

/-- One run of the encoder stack with its per-run dropout mask explicit:
prettytensor builds `dropout(0.9)` in its library-default train phase and
the `is_training` placeholder is wired to nothing, so the mask is drawn
fresh on every `sess.run`, inference included. -/
noncomputable def encStackRun (st : EncStack) (mask : List Bool) (x : List ℝ) :
    List ℝ :=
  st.fcTail (dropout 0.9 mask (st.convLayers x))

/-- `transform` with the dropout randomness visible: evaluates the `z_mean`
node — the first `latent` outputs of the stack — drawing one dropout mask
row per example.  The Gaussian draw `gauss` of the sampler is still never
consumed (the random node is not an ancestor of `z_mean`), and `it` is the
`is_training` feed. -/
noncomputable def transform_run (st : EncStack) (latent : ℕ)
    (X : List (List ℝ)) (masks : List (List Bool)) (gauss : List (List ℝ))
    (it : Bool) : List (List ℝ) :=
  List.zipWith (fun x mask => (encStackRun st mask x).take latent) X masks

/-- Concrete stand-in for the split encoder stack: identity convolution part
and a tail that duplicates its input to fill the `2 * latent_size` slots. -/
noncomputable def demoStack : EncStack :=
  { convLayers := fun x => x, fcTail := fun v => v ++ v }

/-! Helper lemmas: list sums and `zipWith` membership. -/

theorem sum_nonpos_of_mem {l : List ℝ} (h : ∀ x ∈ l, x ≤ 0) : l.sum ≤ 0 := by
  induction l with
  | nil => simp
  | cons a t ih =>
    have ha := h a (by simp)
    have ht := ih fun x hx => h x (by simp [hx])
    simp only [List.sum_cons]
    linarith

theorem mem_zipWith_imp {α β γ : Type _} (f : α → β → γ) :
    ∀ (l : List α) (l2 : List β), ∀ x ∈ List.zipWith f l l2,
      ∃ a ∈ l, ∃ b ∈ l2, x = f a b := by
  intro l
  induction l with
  | nil => intro l2 x hx; simp at hx
  | cons a t ih =>
    intro l2 x hx
    cases l2 with
    | nil => simp at hx
    | cons b t2 =>
      simp only [List.zipWith_cons_cons, List.mem_cons] at hx
      rcases hx with h | h
      · exact ⟨a, by simp, b, by simp, h⟩
      · obtain ⟨a2, ha2, b2, hb2, rfl⟩ := ih t2 x h
        exact ⟨a2, by simp [ha2], b2, by simp [hb2], rfl⟩

/-! Decimal rendering (`Nat.repr`, the `%d` of `get_name`): digit facts,
injectivity, and cancellation around non-digit separators. -/

theorem toDigitsCore_shift (n : ℕ) : ∀ (f : ℕ) (ds : List Char), n < f →
    Nat.toDigitsCore 10 f n ds = Nat.toDigitsCore 10 (n + 1) n [] ++ ds := by
  induction n using Nat.strong_induction_on with
  | _ n ih =>
    intro f ds hf
    obtain ⟨g, rfl⟩ : ∃ g, f = g + 1 := ⟨f - 1, by omega⟩
    by_cases h0 : n / 10 = 0
    · simp [Nat.toDigitsCore, h0]
    · have hlt : n / 10 < n := by omega
      have hg : n / 10 < g := by omega
      simp only [Nat.toDigitsCore, h0, if_false]
      rw [ih (n / 10) hlt g _ hg, ih (n / 10) hlt n _ hlt]
      simp [List.append_assoc]

theorem toDigits_of_lt {n : ℕ} (h : n < 10) : Nat.toDigits 10 n = [Nat.digitChar n] := by
  have h0 : n / 10 = 0 := by omega
  have hm : n % 10 = n := by omega
  simp [Nat.toDigits, Nat.toDigitsCore, h0, hm]

theorem toDigits_of_ge {n : ℕ} (h : 10 ≤ n) :
    Nat.toDigits 10 n = Nat.toDigits 10 (n / 10) ++ [Nat.digitChar (n % 10)] := by
  have h0 : n / 10 ≠ 0 := by omega
  have hlt : n / 10 < n := by omega
  show Nat.toDigitsCore 10 (n + 1) n [] = _
  simp only [Nat.toDigitsCore, h0, if_false]
  rw [toDigitsCore_shift (n / 10) n _ hlt]
  rfl

theorem digitChar_isDigit {n : ℕ} (h : n < 10) : (Nat.digitChar n).isDigit = true := by
  interval_cases n <;> rfl

theorem digitChar_toNat {n : ℕ} (h : n < 10) : (Nat.digitChar n).toNat = n + 48 := by
  interval_cases n <;> rfl

theorem toDigits_isDigit (n : ℕ) : ∀ c ∈ Nat.toDigits 10 n, c.isDigit = true := by
  induction n using Nat.strong_induction_on with
  | _ n ih =>
    rcases lt_or_ge n 10 with h | h
    · rw [toDigits_of_lt h]
      intro c hc
      simp only [List.mem_singleton] at hc
      subst hc
      exact digitChar_isDigit h
    · rw [toDigits_of_ge h]
      intro c hc
      rcases List.mem_append.mp hc with hc | hc
      · exact ih (n / 10) (by omega) c hc
      · simp only [List.mem_singleton] at hc
        subst hc
        exact digitChar_isDigit (by omega)

/-- Value of a digit string, the left inverse of `Nat.toDigits 10`. -/
def strVal (l : List Char) : ℕ := l.foldl (fun a c => a * 10 + (c.toNat - 48)) 0

theorem strVal_toDigits (n : ℕ) : strVal (Nat.toDigits 10 n) = n := by
  induction n using Nat.strong_induction_on with
  | _ n ih =>
    rcases lt_or_ge n 10 with h | h
    · rw [toDigits_of_lt h]
      simp [strVal, digitChar_toNat h]
    · rw [toDigits_of_ge h]
      have hstep : strVal (Nat.toDigits 10 (n / 10) ++ [Nat.digitChar (n % 10)]) =
          strVal (Nat.toDigits 10 (n / 10)) * 10 + ((Nat.digitChar (n % 10)).toNat - 48) := by
        simp [strVal, List.foldl_append]
      rw [hstep, ih (n / 10) (by omega), digitChar_toNat (by omega)]
      omega

theorem toDigits_inj {a b : ℕ} (h : Nat.toDigits 10 a = Nat.toDigits 10 b) : a = b := by
  have hv := congrArg strVal h
  rwa [strVal_toDigits, strVal_toDigits] at hv

theorem repr_data (n : ℕ) : (Nat.repr n).data = Nat.toDigits 10 n := rfl

theorem digits_sep_cancel {sep : Char} (hsep : sep.isDigit = false) :
    ∀ (A B : List Char), (∀ c ∈ A, c.isDigit = true) → (∀ c ∈ B, c.isDigit = true) →
      ∀ {C D : List Char}, A ++ sep :: C = B ++ sep :: D → A = B ∧ C = D := by
  intro A
  induction A with
  | nil =>
    intro B _ hB C D h
    cases B with
    | nil => simpa using h
    | cons b t =>
      exfalso
      simp only [List.nil_append, List.cons_append, List.cons.injEq] at h
      have hb := hB b (by simp)
      rw [← h.1, hsep] at hb
      exact Bool.false_ne_true hb
  | cons a t ih =>
    intro B hA hB C D h
    cases B with
    | nil =>
      exfalso
      simp only [List.nil_append, List.cons_append, List.cons.injEq] at h
      have ha := hA a (by simp)
      rw [h.1, hsep] at ha
      exact Bool.false_ne_true ha
    | cons b t2 =>
      simp only [List.cons_append, List.cons.injEq] at h
      obtain ⟨h1, h2⟩ := h
      obtain ⟨h3, h4⟩ := ih t2 (fun c hc => hA c (by simp [hc]))
        (fun c hc => hB c (by simp [hc])) h2
      exact ⟨by rw [h1, h3], h4⟩

theorem repr_sep_cancel {sep : Char} (hsep : sep.isDigit = false) {a b : ℕ}
    {C D : List Char}
    (h : (Nat.repr a).data ++ sep :: C = (Nat.repr b).data ++ sep :: D) :
    a = b ∧ C = D := by
  rw [repr_data, repr_data] at h
  obtain ⟨h1, h2⟩ := digits_sep_cancel hsep _ _ (toDigits_isDigit a) (toDigits_isDigit b) h
  exact ⟨toDigits_inj h1, h2⟩

theorem nameOf_data (h w bs ls ed dd : ℕ) :
    (nameOf h w bs ls ed dd).data =
      "cvae_input_".data ++ ((Nat.repr h).data ++ ('x' ::
        ((Nat.repr w).data ++ ('_' :: ("batch".data ++ ((Nat.repr bs).data ++ ('_' ::
          ("latent".data ++ ((Nat.repr ls).data ++ ('_' :: ("edim".data ++
            ((Nat.repr ed).data ++ ('_' :: ("ddim".data ++
              (Nat.repr dd).data)))))))))))))) := by
  simp only [nameOf, String.data_append, List.append_assoc]
  rfl

/-! Bounds used by the loss lower bound. -/

theorem logClipEps_pos : 0 < logClipEps := by norm_num [logClipEps]

theorem clip_lower (v : ℝ) : logClipEps ≤ clip_by_value v logClipEps 1 := by
  unfold clip_by_value
  exact le_min (le_max_right v logClipEps) (by norm_num [logClipEps])

theorem clip_upper (v : ℝ) : clip_by_value v logClipEps 1 ≤ 1 := min_le_right _ _

theorem log_clip_nonpos (v : ℝ) : Real.log (clip_by_value v logClipEps 1) ≤ 0 :=
  Real.log_nonpos (le_trans logClipEps_pos.le (clip_lower v)) (clip_upper v)

theorem reconstr_loss_nonneg {x : List ℝ} (xr : List ℝ)
    (hx : ∀ v ∈ x, 0 ≤ v ∧ v ≤ 1) : 0 ≤ reconstr_loss x xr := by
  unfold reconstr_loss
  rw [neg_nonneg]
  apply sum_nonpos_of_mem
  intro t ht
  obtain ⟨xi, hxi, ri, hri, rfl⟩ := mem_zipWith_imp _ _ _ t ht
  obtain ⟨h0, h1⟩ := hx xi hxi
  have l1 := log_clip_nonpos ri
  have l2 := log_clip_nonpos (1 - ri)
  nlinarith [mul_nonneg h0 (neg_nonneg.2 l1),
    mul_nonneg (by linarith : (0 : ℝ) ≤ 1 - xi) (neg_nonneg.2 l2)]

theorem latent_loss_nonneg (s mu : List ℝ) : 0 ≤ latent_loss s mu := by
  unfold latent_loss
  have hsum : (List.zipWith (fun si m => 1 + si - m ^ 2 - Real.exp si) s mu).sum ≤ 0 := by
    apply sum_nonpos_of_mem
    intro t ht
    obtain ⟨si, _, m2, _, rfl⟩ := mem_zipWith_imp _ _ _ t ht
    have he := Real.add_one_le_exp si
    nlinarith [sq_nonneg m2]
  linarith

theorem loss_nonneg (m : CVAE) (X eps : List (List ℝ))
    (hX : ∀ x ∈ X, ∀ v ∈ x, 0 ≤ v ∧ v ≤ 1) : 0 ≤ m.loss X eps := by
  simp only [CVAE.loss]
  apply div_nonneg
  · apply List.sum_nonneg
    intro t ht
    obtain ⟨x, hx, e, he, rfl⟩ := mem_zipWith_imp _ _ _ t ht
    exact add_nonneg (reconstr_loss_nonneg (m.x_reconstr_mean x e) (hX x hx))
      (latent_loss_nonneg (m.z_log_sigma_sq x) (m.z_mean x))
  · exact Nat.cast_nonneg _

/-- C1 counterexample: on the concrete model whose encoder stack emits the
raw output `[0, 0]`, the latent-loss node of the graph differs from the KL
expression applied to the raw pre-transform second half; the graph feeds the
transformed scale `sqrt(exp(raw))` into the KL expression instead. -/
theorem C1_counterexample : demoModel.latent_term [0] ≠ demoModel.kl_on_raw [0] := by
  simp only [CVAE.latent_term, CVAE.kl_on_raw, CVAE.z_log_sigma_sq, CVAE.z_mean,
    CVAE.encoder, demoModel, demoNets, CVAE.init, latent_loss]
  norm_num [Real.exp_zero, Real.sqrt_one]
  nlinarith [Real.exp_one_gt_d9]

/-- C1 (amended): the latent regularization term applies the KL formula
`-0.5 * Σ (1 + log_var - mean^2 - exp log_var)` to the strictly-positive
scale `sqrt(exp(raw))` that the encoder returns as its second output — the
very value the sampler multiplies by epsilon — rather than to the raw
second-half output of the encoder's final fully-connected layer. -/
theorem C1_latent_term_on_scale (m : CVAE) (x eps : List ℝ) :
    m.latent_term x =
      latent_loss
        (((m.nets.encNet x).drop m.latent_size).map fun p => Real.sqrt (Real.exp p))
        ((m.nets.encNet x).take m.latent_size) ∧
    m.z x eps =
      List.zipWith (· + ·) ((m.nets.encNet x).take m.latent_size)
        (List.zipWith (· * ·)
          (((m.nets.encNet x).drop m.latent_size).map fun p => Real.sqrt (Real.exp p))
          eps) :=
  ⟨rfl, rfl⟩

/-- C2: every call to `generate` resolves the free name `z_mu`, which no
parameter and no enclosing scope binds, so it fails with a name-resolution
error on every invocation and never performs a decode-only pass. -/
theorem C2_generate_name_error (m : CVAE) (it : Bool) :
    m.generate it = Except.error (PyErr.nameError "z_mu") := rfl

/-- C3: the code's behavior at the failing input.  Two `transform` runs on
the same one-pixel batch that differ only in the dropout keep mask produce
different mean outputs — the `dropout(0.9)` built at line 131 stays active
on every run because the `is_training` placeholder (fed `False` on every
inference call, showing the intended phase) is wired to nothing — while
with the mask held fixed the result is independent of the sampler's
Gaussian draw and of the `is_training` feed. -/
theorem C3_transform_dropout_divergence :
    transform_run demoStack 1 [[1]] [[true]] [[0]] false ≠
        transform_run demoStack 1 [[1]] [[false]] [[0]] false ∧
      ∀ (gauss gauss2 : List (List ℝ)) (it it2 : Bool),
        transform_run demoStack 1 [[1]] [[true]] gauss it =
          transform_run demoStack 1 [[1]] [[true]] gauss2 it2 := by
  constructor
  · simp [transform_run, encStackRun, dropout, demoStack]
    norm_num
  · intro gauss gauss2 it it2
    rfl

/-- C4: with all pixels in `[0, 1]`, the clipping keeps every logarithm
argument in `[1e-10, 1]`, and the batch loss is bounded below by the finite
value 0 — in particular it is a well-defined real number (never `NaN`) on an
all-zero or all-one image. -/
theorem C4_loss_lower_bound (m : CVAE) (X eps : List (List ℝ))
    (hX : ∀ x ∈ X, ∀ v ∈ x, 0 ≤ v ∧ v ≤ 1) :
    (∀ v : ℝ, logClipEps ≤ clip_by_value v logClipEps 1 ∧
      clip_by_value v logClipEps 1 ≤ 1) ∧
      0 ≤ m.loss X eps :=
  ⟨fun v => ⟨clip_lower v, clip_upper v⟩, loss_nonneg m X eps hX⟩

/-- C4 witness: the loss evaluated on the all-zero one-pixel image. -/
theorem C4_witness :
    (∀ x ∈ [[(0 : ℝ)]], ∀ v ∈ x, 0 ≤ v ∧ v ≤ 1) ∧
      0 ≤ demoModel.loss [[0]] [[0]] := by
  have hX : ∀ x ∈ [[(0 : ℝ)]], ∀ v ∈ x, 0 ≤ v ∧ v ≤ 1 := by
    intro x hx v hv
    simp only [List.mem_singleton] at hx
    subst hx
    simp only [List.mem_singleton] at hv
    subst hv
    norm_num
  exact ⟨hX, (C4_loss_lower_bound demoModel [[0]] [[0]] hX).2⟩

/-- C5: the iteration counter starts at 0, each `partial_fit` increments it
by exactly 1 (so one step takes it from 0 to 1), the diagnostic summary is
emitted exactly when the pre-increment value is divisible by 10, and the
counter influences nothing else (neither the reported cost nor the updated
parameters). -/
theorem C5_iteration_counter (shape : ℕ × ℕ) (bs ls ed dd : ℕ) (nets : Nets)
    (opt : List (List ℝ) → List (List ℝ) → Nets → Nets) (m : CVAE)
    (X eps : List (List ℝ)) (it : Bool) (k : ℕ) :
    (CVAE.init shape bs ls ed dd nets opt).iteration = 0 ∧
      (m.partial_fit X eps it).1.iteration = m.iteration + 1 ∧
      ((m.partial_fit X eps it).2.2 = true ↔ m.iteration % 10 = 0) ∧
      (({ m with iteration := k } : CVAE).partial_fit X eps it).2.1 =
        (m.partial_fit X eps it).2.1 ∧
      (({ m with iteration := k } : CVAE).partial_fit X eps it).1.nets =
        (m.partial_fit X eps it).1.nets ∧
      ((CVAE.init shape bs ls ed dd nets opt).partial_fit X eps it).1.iteration = 1 := by
  refine ⟨rfl, rfl, ?_, rfl, rfl, rfl⟩
  simp [CVAE.partial_fit]

/-- C6: `load` on a path that names no existing file is a no-op (it returns
without raising and leaves every parameter at its pre-call value); on an
existing file it invokes the restore operation. -/
theorem C6_load_guard (fe : String → Bool) (ck : String → List ℝ)
    (s : Session) (fn : String) :
    (fe fn = false → CVAE.load fe ck s fn = s) ∧
      (fe fn = true → CVAE.load fe ck s fn = saver_restore s (ck fn)) := by
  constructor <;> intro h <;> simp [CVAE.load, h]

/-- C6 witness: loading from a file system with no files leaves the
parameter store untouched. -/
theorem C6_witness :
    CVAE.load (fun _ => false) (fun _ => [1]) { vars := [0] } "model.ckpt" =
      { vars := [0] } :=
  (C6_load_guard (fun _ => false) (fun _ => [1]) { vars := [0] } "model.ckpt").1 rfl

/-! Unfolding lemmas for the training loop. -/

theorem modelAfter_succ_last (batches eps : ℕ → List (List ℝ)) (k : ℕ) :
    ∀ (start : ℕ) (m : CVAE),
      CVAE.modelAfter batches eps start (k + 1) m =
        ((CVAE.modelAfter batches eps start k m).partial_fit
            (batches (start + k)) (eps (start + k)) true).1 := by
  induction k with
  | zero =>
    intro start m
    simp [CVAE.modelAfter]
  | succ k ih =>
    intro start m
    have h1 : CVAE.modelAfter batches eps start (k + 1 + 1) m =
        CVAE.modelAfter batches eps (start + 1) (k + 1)
          ((m.partial_fit (batches start) (eps start) true).1) := rfl
    have h2 : CVAE.modelAfter batches eps start (k + 1) m =
        CVAE.modelAfter batches eps (start + 1) k
          ((m.partial_fit (batches start) (eps start) true).1) := rfl
    rw [h1, ih, h2]
    have h3 : start + 1 + k = start + (k + 1) := by omega
    rw [h3]

theorem modelAfter_iteration (batches eps : ℕ → List (List ℝ)) (k : ℕ) :
    ∀ (start : ℕ) (m : CVAE),
      (CVAE.modelAfter batches eps start k m).iteration = m.iteration + k := by
  induction k with
  | zero => intro start m; rfl
  | succ k ih =>
    intro start m
    have h1 : CVAE.modelAfter batches eps start (k + 1) m =
        CVAE.modelAfter batches eps (start + 1) k
          ((m.partial_fit (batches start) (eps start) true).1) := rfl
    rw [h1, ih]
    simp only [CVAE.partial_fit]
    omega

theorem trainEpoch_succ (m : CVAE) (batches eps : ℕ → List (List ℝ))
    (start T bs n : ℕ) :
    m.trainEpoch batches eps start (T + 1) bs n =
      (((m.trainEpoch batches eps start T bs n).1.partial_fit
          (batches (start + T)) (eps (start + T)) true).1,
       (m.trainEpoch batches eps start T bs n).2 +
         ((m.trainEpoch batches eps start T bs n).1.partial_fit
             (batches (start + T)) (eps (start + T)) true).2.1 /
           (n : ℝ) * (bs : ℝ)) := by
  unfold CVAE.trainEpoch
  rw [List.range_succ, List.foldl_append, List.foldl_cons, List.foldl_nil]

theorem trainEpoch_spec (batches eps : ℕ → List (List ℝ)) (bs n : ℕ) (T : ℕ) :
    ∀ (start : ℕ) (m : CVAE),
      m.trainEpoch batches eps start T bs n =
        (CVAE.modelAfter batches eps start T m,
         ((List.range T).map fun i =>
            (CVAE.modelAfter batches eps start i m).loss (batches (start + i))
                (eps (start + i)) *
              (bs : ℝ) / (n : ℝ)).sum) := by
  induction T with
  | zero => intro start m; simp [CVAE.trainEpoch, CVAE.modelAfter]
  | succ T ih =>
    intro start m
    rw [trainEpoch_succ, ih]
    simp only [Prod.mk.injEq]
    constructor
    · exact (modelAfter_succ_last batches eps T start m).symm
    · simp only [CVAE.partial_fit]
      rw [List.range_succ, List.map_append, List.sum_append]
      simp only [List.map_cons, List.map_nil, List.sum_cons, List.sum_nil]
      ring

theorem trainEpoch_iteration (m : CVAE) (batches eps : ℕ → List (List ℝ))
    (start T bs n : ℕ) :
    (m.trainEpoch batches eps start T bs n).1.iteration = m.iteration + T := by
  rw [trainEpoch_spec]
  exact modelAfter_iteration batches eps T start m

theorem train_succ (m : CVAE) (n : ℕ) (batches eps : ℕ → List (List ℝ))
    (bs E : ℕ) :
    m.train n batches eps bs (E + 1) =
      (((m.train n batches eps bs E).1.trainEpoch batches eps (E * (n / bs))
          (n / bs) bs n).1,
       (m.train n batches eps bs E).2 ++
         [((m.train n batches eps bs E).1.trainEpoch batches eps (E * (n / bs))
             (n / bs) bs n).2]) := by
  simp only [CVAE.train]
  rw [List.range_succ, List.foldl_append, List.foldl_cons, List.foldl_nil]

theorem train_iteration (n : ℕ) (batches eps : ℕ → List (List ℝ)) (bs : ℕ) :
    ∀ (E : ℕ) (m : CVAE),
      (m.train n batches eps bs E).1.iteration = m.iteration + E * (n / bs) := by
  intro E
  induction E with
  | zero => intro m; simp [CVAE.train]
  | succ E ih =>
    intro m
    rw [train_succ]
    show ((m.train n batches eps bs E).1.trainEpoch batches eps (E * (n / bs))
        (n / bs) bs n).1.iteration = m.iteration + (E + 1) * (n / bs)
    rw [trainEpoch_iteration, ih]
    ring

/-- C7: per epoch, `train` runs exactly `floor(n_samples / batch_size)`
mini-batch updates — the epoch's result is the model after that many
successive `partial_fit` steps on consecutive fresh batches — its
accumulated average cost is the sum over iterations of
`cost * batch_size / n_samples`, and over `training_epochs` epochs the
iteration counter grows by `training_epochs * floor(n_samples /
batch_size)`, one `partial_fit` per iteration. -/
theorem C7_train_loop (m : CVAE) (n_samples : ℕ)
    (batches eps : ℕ → List (List ℝ)) (batch_size training_epochs start : ℕ) :
    m.trainEpoch batches eps start (n_samples / batch_size) batch_size n_samples =
      (CVAE.modelAfter batches eps start (n_samples / batch_size) m,
       ((List.range (n_samples / batch_size)).map fun i =>
          (CVAE.modelAfter batches eps start i m).loss (batches (start + i))
              (eps (start + i)) *
            (batch_size : ℝ) / (n_samples : ℝ)).sum) ∧
      (m.train n_samples batches eps batch_size training_epochs).1.iteration =
        m.iteration + training_epochs * (n_samples / batch_size) :=
  ⟨trainEpoch_spec batches eps batch_size n_samples (n_samples / batch_size) start m,
   train_iteration n_samples batches eps batch_size training_epochs m⟩

/-- C8: `get_name` is a pure function of the five construction
hyperparameters — equal hyperparameters give equal names — and it is
injective in them: equal names force equal hyperparameters, so changing any
one hyperparameter while holding the others fixed changes the string. -/
theorem C8_get_name_pure_injective (m m2 : CVAE) :
    ((m.input_shape = m2.input_shape ∧ m.batch_size = m2.batch_size ∧
        m.latent_size = m2.latent_size ∧ m.e_dim = m2.e_dim ∧
        m.d_dim = m2.d_dim) →
      m.get_name = m2.get_name) ∧
    (m.get_name = m2.get_name →
      (m.input_shape = m2.input_shape ∧ m.batch_size = m2.batch_size ∧
        m.latent_size = m2.latent_size ∧ m.e_dim = m2.e_dim ∧
        m.d_dim = m2.d_dim)) := by
  constructor
  · rintro ⟨h1, h2, h3, h4, h5⟩
    unfold CVAE.get_name
    rw [h1, h2, h3, h4, h5]
  · intro h
    unfold CVAE.get_name at h
    have hd := congrArg String.data h
    rw [nameOf_data, nameOf_data] at hd
    have e0 := List.append_cancel_left hd
    obtain ⟨eh, r1⟩ := repr_sep_cancel (by rfl) e0
    obtain ⟨ew, r2⟩ := repr_sep_cancel (by rfl) r1
    have r2b := List.append_cancel_left r2
    obtain ⟨ebs, r3⟩ := repr_sep_cancel (by rfl) r2b
    have r3b := List.append_cancel_left r3
    obtain ⟨els, r4⟩ := repr_sep_cancel (by rfl) r3b
    have r4b := List.append_cancel_left r4
    obtain ⟨eed, r5⟩ := repr_sep_cancel (by rfl) r4b
    have r5b := List.append_cancel_left r5
    rw [repr_data, repr_data] at r5b
    exact ⟨Prod.ext eh ew, ebs, els, eed, toDigits_inj r5b⟩

/-- C8 witness: two models with the same hyperparameters but different
networks carry the same name. -/
theorem C8_witness : CVAE.get_name demoModel = CVAE.get_name demoModelB :=
  (C8_get_name_pure_injective demoModel demoModelB).1 ⟨rfl, rfl, rfl, rfl, rfl⟩

/-- C9 counterexample: the log directory is not
`logs/<name>_<timestamp>` — the constructor inserts no underscore between
the model name and the timestamp. -/
theorem C9_counterexample :
    demoModel.log_dir "2016-01-02 03:04:05.123456" ≠
      "logs/" ++ demoModel.get_name ++ "_" ++
        get_formatted_datetime "2016-01-02 03:04:05.123456" := by
  decide

/-- C9 (amended): the log directory is the string `logs/` followed by the
model name immediately followed (with no separator) by the timestamp, where
the timestamp is the construction time with every space, dash and colon
replaced by an underscore. -/
theorem C9_log_dir_layout (m : CVAE) (now : String) :
    m.log_dir now = "logs/" ++ (m.get_name ++ get_formatted_datetime now) ∧
      (get_formatted_datetime now).data =
        now.data.map fun c => if c = ' ' ∨ c = '-' ∨ c = ':' then '_' else c := by
  constructor
  · exact String.append_assoc _ _ _
  · show ((now.data.map fun c => if c = ' ' then '_' else c).map
        fun c => if c = '-' then '_' else c).map
          (fun c => if c = ':' then '_' else c) = _
    rw [List.map_map, List.map_map]
    have hf : (((fun c => if c = ':' then '_' else c) ∘
        fun c => if c = '-' then '_' else c) ∘
          fun c => if c = ' ' then '_' else c) =
        fun c => if c = ' ' ∨ c = '-' ∨ c = ':' then '_' else c := by
      funext c
      by_cases h1 : c = ' '
      · simp [h1, Function.comp]
      · by_cases h2 : c = '-'
        · simp [h1, h2, Function.comp]
        · by_cases h3 : c = ':'
          · simp [h1, h2, h3, Function.comp]
          · simp [h1, h2, h3, Function.comp]
    rw [hf]

/-- C10: the value fed for the `is_training` placeholder influences no
operation's result — no node of the graph consumes that placeholder. -/
theorem C10_is_training_unused (m : CVAE) (X eps : List (List ℝ)) (b b2 : Bool) :
    m.transform X eps b = m.transform X eps b2 ∧
      m.reconstruct X eps b = m.reconstruct X eps b2 ∧
      m.partial_fit X eps b = m.partial_fit X eps b2 ∧
      m.generate b = m.generate b2 :=
  ⟨rfl, rfl, rfl, rfl⟩
